import Mathlib

/-!
Verification development for the GNCOMANAGERBOT repository (src/main.py and
src/wa_server.py), a Telegram/WhatsApp chat-bot service.

The Python source is shallowly embedded: pure helper functions become Lean
functions on `String`/`List Char`; the per-message handler `handle_text`
becomes a pure function from a session value, a configuration and oracles for
the external collaborators (CRM client, completion API, random choice) to a
new session plus an effect trace (replies sent, CRM requests made, completion
API invocations and HTTP attempts).

Modelling conventions:
- Python strings are Lean `String`s; character-level work happens on `.data`.
- The regex character class `\d` (and `\D`) is modelled as the ASCII digits
  0-9, `\s` as the six ASCII whitespace characters, and `\w` as ASCII
  alphanumerics, underscore and the Cyrillic letters; `str.lower()` is
  modelled on the ASCII and Cyrillic ranges.
- The regular expressions used by the source (fixed alternations of literal
  words, `\s+`, `\b`, trailing `[^.!?]*` / `\w*`) are embedded by small
  executable matching combinators that implement exactly those constructs.
- Environment variables are fixed at their defaults from the source
  (`COMPANY_NAME = "GNCO"` etc.); `kb.json` is absent from the repository,
  so the loaded knowledge base equals `default_kb()`.
-/

set_option maxHeartbeats 1000000
set_option linter.unusedVariables false

namespace Gnco

/-! ## Character helpers -/

/-- `str.lower()` on the ASCII and Cyrillic ranges (А..Я → а..я, Ё → ё). -/
def ruLower (c : Char) : Char :=
  if 'A' ≤ c ∧ c ≤ 'Z' then Char.ofNat (c.toNat + 32)
  else if 0x410 ≤ c.toNat ∧ c.toNat ≤ 0x42F then Char.ofNat (c.toNat + 0x20)
  else if c.toNat = 0x401 then Char.ofNat 0x451
  else c

/-- The replacement `ё → е` applied by `tokens_ru`. -/
def yoE (c : Char) : Char := if c = 'ё' then 'е' else c

/-- Python `\s` (ASCII part): space, tab, newline, carriage return, form feed,
vertical tab. -/
def isWsChar (c : Char) : Bool :=
  c = ' ' || c = '\t' || c = '\n' || c = '\r' || c = '\x0b' || c = '\x0c'

/-- The three sentence-stopper characters of the class `[^.!?]`. -/
def isStopChar (c : Char) : Bool := c = '.' || c = '!' || c = '?'

/-- Python `\w` (word character) for the alphabets this bot handles. -/
def isWordChar (c : Char) : Bool :=
  c.isAlphanum || c = '_' || (0x430 ≤ c.toNat && c.toNat ≤ 0x44F) ||
    (0x410 ≤ c.toNat && c.toNat ≤ 0x42F) || c.toNat = 0x401 || c.toNat = 0x451

/-- Characters kept by the `tokens_ru` cleanup class `[a-zа-я0-9\-]`
(whitespace is handled separately as a separator). -/
def isTokChar (c : Char) : Bool :=
  ('a' ≤ c && c ≤ 'z') || (0x430 ≤ c.toNat && c.toNat ≤ 0x44F) ||
    c.isDigit || c = '-'

/-! ## String helpers (Python slicing / strip / split) -/

/-- Python `s[:n]`. -/
def strTake (s : String) (n : Nat) : String := String.mk (s.data.take n)

/-- Python `s.strip()` at the character-list level. -/
def stripChars (l : List Char) : List Char :=
  ((l.dropWhile isWsChar).reverse.dropWhile isWsChar).reverse

/-- Python `s.strip()`. -/
def pyStrip (s : String) : String := String.mk (stripChars s.data)

/-- Helper of `wsWords`: split on whitespace, dropping empty words
(`cur` holds the current word reversed). -/
def wordsAux : List Char → List Char → List String
  | cur, [] => if cur = [] then [] else [String.mk cur.reverse]
  | cur, c :: rest =>
    if isWsChar c then
      if cur = [] then wordsAux [] rest
      else String.mk cur.reverse :: wordsAux [] rest
    else wordsAux (c :: cur) rest

/-- Python `s.split()` (split on whitespace runs, no empty items). -/
def wsWords (l : List Char) : List String := wordsAux [] l

/-! ## normalize_phone / extract_phone (src/main.py lines 72-86) -/

/-- The digit characters of a string, in order (`re.sub(r"\D", "", raw)`). -/
def digitsOf (s : String) : List Char := s.data.filter Char.isDigit

/-- `normalize_phone` from src/main.py: strip non-digits, require 7..15
digits, prefix `+`. -/
def normalize_phone (raw : String) : Option String :=
  if raw = "" then none
  else
    let digits := digitsOf raw
    if 7 ≤ digits.length ∧ digits.length ≤ 15 then
      some (String.mk ('+' :: digits))
    else none

/-- Characters allowed in the body of `PHONE_RE = \+?\d[\d\-\s()]{6,}`. -/
def isPhoneBodyChar (c : Char) : Bool :=
  c.isDigit || c = '-' || isWsChar c || c = '(' || c = ')'

/-- Attempt of `PHONE_RE` anchored at the current position: optional `+`,
then a digit, then a greedy run of at least 6 body characters; returns the
matched characters. -/
def phoneAt (l : List Char) : Option (List Char) :=
  match l with
  | '+' :: d :: rest =>
    if d.isDigit then
      let run := rest.takeWhile isPhoneBodyChar
      if 6 ≤ run.length then some ('+' :: d :: run) else none
    else none
  | d :: rest =>
    if d.isDigit then
      let run := rest.takeWhile isPhoneBodyChar
      if 6 ≤ run.length then some (d :: run) else none
    else none
  | [] => none

/-- `PHONE_RE.search`: leftmost match. -/
def phoneSearch : List Char → Option (List Char)
  | [] => none
  | c :: rest =>
    match phoneAt (c :: rest) with
    | some m => some m
    | none => phoneSearch rest

/-- `extract_phone` from src/main.py. -/
def extract_phone (text : String) : Option String :=
  match phoneSearch text.data with
  | none => none
  | some m => normalize_phone (String.mk m)

/-- `looks_like_name` from src/main.py line 354. -/
def looks_like_name (text : String) : Bool :=
  let t := pyStrip text
  t ≠ "" && (extract_phone t).isNone && (wsWords t.data).length ≤ 4 &&
    t.length ≤ 40

/-! ## push_history (src/main.py lines 97-102) -/

def MAX_HISTORY : Nat := 6

/-- The `while len(store) > MAX_HISTORY: store.pop(0)` loop. -/
def trimHist (l : List (String × String)) : List (String × String) :=
  if h : MAX_HISTORY < l.length then trimHist (l.drop 1) else l
termination_by l.length
decreasing_by
  simp only [List.length_drop]
  omega

/-- `push_history` from src/main.py: append the entry (role, trimmed content
capped at 2000 characters) when the content is nonempty, then evict oldest
entries down to `MAX_HISTORY`. -/
def push_history (store : List (String × String)) (role content : String) :
    List (String × String) :=
  if content = "" then store
  else trimHist (store ++ [(role, strTake (pyStrip content) 2000)])

/-! ## Pattern-matching combinators

The regular expressions of src/main.py are fixed alternations of literal
words joined by `\s+`, with word boundaries `\b` and the trailing classes
`\w*` / `[^.!?]*`.  Each matcher takes the character list starting at the
match position and returns the number of characters consumed by a
successful match (`none` on failure).  Literals compare case-insensitively
(`re.I` / prior lowercasing), via `ruLower`. -/

/-- Match a literal word (case-insensitively). -/
def mLit : List Char → List Char → Option Nat
  | [], _ => some 0
  | _ :: _, [] => none
  | p :: ps, x :: xs =>
    if ruLower x = p then (mLit ps xs).map (· + 1) else none

/-- Literal matcher from a string pattern. -/
def lit (s : String) : List Char → Option Nat := mLit s.data

/-- Sequencing of matchers. -/
def mSeq (f g : List Char → Option Nat) (l : List Char) : Option Nat :=
  match f l with
  | none => none
  | some a =>
    match g (l.drop a) with
    | none => none
    | some b => some (a + b)

/-- Ordered alternation of matchers (first match wins, as in Python
alternation). -/
def mAlt (f g : List Char → Option Nat) (l : List Char) : Option Nat :=
  match f l with
  | some n => some n
  | none => g l

/-- `\s+` followed by another matcher: consume the maximal whitespace run
(at least one character), then continue.  Since every use in the source is
followed by a literal starting with a non-whitespace character, the greedy
run is the unique viable choice. -/
def mWsSeq (g : List Char → Option Nat) (l : List Char) : Option Nat :=
  if (l.takeWhile isWsChar).length = 0 then none
  else
    match g (l.drop (l.takeWhile isWsChar).length) with
    | none => none
    | some b => some ((l.takeWhile isWsChar).length + b)

/-! ## DIY request detection (src/main.py lines 104-122) -/

/-- Body of DIY pattern 1:
`как\s+(починить|ремонтировать|заменить|разобрать|снять|поставить|натянуть|отрегулировать)`. -/
def diyP1 : List Char → Option Nat :=
  mSeq (lit "как") (mWsSeq
    (mAlt (lit "починить") (mAlt (lit "ремонтировать") (mAlt (lit "заменить")
      (mAlt (lit "разобрать") (mAlt (lit "снять") (mAlt (lit "поставить")
        (mAlt (lit "натянуть") (lit "отрегулировать")))))))))

/-- Body of DIY pattern 2: `инструкц(ия|ии)`. -/
def diyP2 : List Char → Option Nat :=
  mSeq (lit "инструкц") (mAlt (lit "ия") (lit "ии"))

/-- Body of DIY pattern 3: `пошагов(о|ая)`. -/
def diyP3 : List Char → Option Nat :=
  mSeq (lit "пошагов") (mAlt (lit "о") (lit "ая"))

/-- Body of DIY pattern 4: `своими\s+руками`. -/
def diyP4 : List Char → Option Nat := mSeq (lit "своими") (mWsSeq (lit "руками"))

/-- Body of DIY pattern 5: `что\s+нужно\s+сделать`. -/
def diyP5 : List Char → Option Nat :=
  mSeq (lit "что") (mWsSeq (mSeq (lit "нужно") (mWsSeq (lit "сделать"))))

/-- Body of DIY pattern 6: `какие\s+инструменты`. -/
def diyP6 : List Char → Option Nat :=
  mSeq (lit "какие") (mWsSeq (lit "инструменты"))

/-- Body of DIY pattern 7: `гайд`. -/
def diyP7 : List Char → Option Nat := lit "гайд"

/-- Combined body of the 7 `DIY_PATTERNS` (each is wrapped in `\b...\b`;
matching any of them at some position triggers). -/
def diyBody (l : List Char) : Option Nat :=
  mAlt diyP1 (mAlt diyP2 (mAlt diyP3 (mAlt diyP4 (mAlt diyP5
    (mAlt diyP6 diyP7))))) l

/-- `true` when the optional character is absent or not a word character
(the two sides of a `\b` boundary around a word). -/
def nonWordOpt : Option Char → Bool
  | none => true
  | some c => !(isWordChar c)

/-- A `\b<body>\b` match anchored at the current position: the previous
character must be a non-word character (or the start), the body must match,
and the character following the match must be a non-word character (or the
end). -/
def diyAt (prev : Option Char) (l : List Char) : Bool :=
  nonWordOpt prev &&
    match diyBody l with
    | some n => nonWordOpt ((l.drop n).head?)
    | none => false

/-- `re.search` over all positions, tracking the previous character for the
word-boundary test. -/
def diySearch : Option Char → List Char → Bool
  | _, [] => false
  | prev, c :: rest => diyAt prev (c :: rest) || diySearch (some c) rest

/-- `is_diy_request` from src/main.py: lowercase the text, then search the
`DIY_PATTERNS`. -/
def is_diy_request (text : String) : Bool :=
  diySearch none (text.data.map ruLower)

/-- `DIY_SAFE_REPLY` from src/main.py. -/
def DIY_SAFE_REPLY : String :=
  "Понимаю желание разобраться самому, но из соображений безопасности и гарантии мы не даём инструкции по самостоятельному ремонту. Могу предложить быструю диагностику, запись в сервис и (при необходимости) эвакуатор. Опишите, пожалуйста, симптомы — и я оформлю обращение."

/-- The repair-verb stems of the guard in `ai_reply`
(`\b(открут|сним|установ|замен|подключ|раскрут|прижми|подтян)\w*\b`). -/
def repairStems : List String :=
  ["открут", "сним", "установ", "замен", "подключ", "раскрут", "прижми",
   "подтян"]

/-- Does one of the repair stems match at the current position?  The
trailing `\w*\b` always succeeds (the maximal word-character run is taken
and is followed by a boundary), so only the stem and the leading boundary
matter. -/
def repairAt (prev : Option Char) (l : List Char) : Bool :=
  nonWordOpt prev && repairStems.any (fun p => (lit p l).isSome)

/-- Search for a repair-verb stem at any position. -/
def repairSearch : Option Char → List Char → Bool
  | _, [] => false
  | prev, c :: rest => repairAt prev (c :: rest) || repairSearch (some c) rest

/-- The `re.search(r"\b(открут|...)\w*\b", text.lower())` guard in
`ai_reply`. -/
def hasRepairVerb (text : String) : Bool :=
  repairSearch none (text.data.map ruLower)

/-! ## sanitize_ai_reply (src/main.py lines 124-129)

`BOOKING_PHRASES = (запис(ал|ываю)|оформ(ил|ляю)|постав(ил|лю)\s+в\s+расписание|созда(л|ю)\s+заявк)`;
`sanitize_ai_reply` removes every match of `BOOKING_PHRASES + "[^.!?]*"`
(case-insensitively) and strips the result, unless an inquiry already
exists. -/

/-- Alternative 1 of `BOOKING_PHRASES`: `запис(ал|ываю)`. -/
def bookingA1 : List Char → Option Nat :=
  mSeq (lit "запис") (mAlt (lit "ал") (lit "ываю"))

/-- Alternative 2 of `BOOKING_PHRASES`: `оформ(ил|ляю)`. -/
def bookingA2 : List Char → Option Nat :=
  mSeq (lit "оформ") (mAlt (lit "ил") (lit "ляю"))

/-- Alternative 3 of `BOOKING_PHRASES`: `постав(ил|лю)\s+в\s+расписание`. -/
def bookingA3 : List Char → Option Nat :=
  mSeq (lit "постав") (mSeq (mAlt (lit "ил") (lit "лю"))
    (mWsSeq (mSeq (lit "в") (mWsSeq (lit "расписание")))))

/-- Alternative 4 of `BOOKING_PHRASES`: `созда(л|ю)\s+заявк`. -/
def bookingA4 : List Char → Option Nat :=
  mSeq (lit "созда") (mSeq (mAlt (lit "л") (lit "ю")) (mWsSeq (lit "заявк")))

/-- A match of `BOOKING_PHRASES` anchored at the current position (no word
boundaries in this pattern). -/
def bookingEnd (l : List Char) : Option Nat :=
  mAlt bookingA1 (mAlt bookingA2 (mAlt bookingA3 bookingA4)) l

/-- One `re.sub` scan of `BOOKING_PHRASES + "[^.!?]*"` with replacement
`""`: at each position, if the booking pattern matches, delete the match
together with the following greedy run of non-stopper characters and
continue scanning after it; otherwise keep the character.  The fuel is the
list length (each step consumes at least one character, proved in
`bookingEnd_pos`). -/
def scrubF : Nat → List Char → List Char
  | 0, l => l
  | _ + 1, [] => []
  | fuel + 1, c :: rest =>
    match bookingEnd (c :: rest) with
    | none => c :: scrubF fuel rest
    | some n =>
      scrubF fuel (((c :: rest).drop n).dropWhile (fun d => !(isStopChar d)))

/-- `re.sub(BOOKING_PHRASES + r"[^.!?]*", "", text, flags=re.I)` on the
character list. -/
def scrub (l : List Char) : List Char := scrubF l.length l

/-- `sanitize_ai_reply` from src/main.py lines 126-129: once an inquiry
exists, the reply passes through unchanged; otherwise every booking-promise
phrase (and its sentence tail) is removed and the result is stripped. -/
def sanitize_ai_reply (text : String) (has_inquiry : Bool) : String :=
  if has_inquiry then text
  else String.mk (stripChars (scrub text.data))

end Gnco

namespace Gnco

/-! ## Combinator metatheory

`MT f` packages the facts needed about each matcher: a successful match
consumes between 1 and `l.length` characters, is preserved when the list is
extended on the right, can be transported back to a prefix long enough to
contain it, and consumes no sentence-stopper character.  `MH f hs` adds
that a match begins with a character whose lowercase form lies in `hs`, a
fact that makes ordered alternation well-behaved. -/

structure MT (f : List Char → Option Nat) : Prop where
  pos : ∀ l n, f l = some n → 1 ≤ n
  bdd : ∀ l n, f l = some n → n ≤ l.length
  grow : ∀ l e n, f l = some n → f (l ++ e) = some n
  shrink : ∀ l e n, f (l ++ e) = some n → n ≤ l.length → f l = some n
  nostop : ∀ l n, f l = some n → ∀ c ∈ l.take n, isStopChar c = false
  nil : f [] = none

structure MH (f : List Char → Option Nat) (hs : List Char) : Prop where
  mt : MT f
  head_mem : ∀ l n, f l = some n → ∃ x xs, l = x :: xs ∧ ruLower x ∈ hs
  head_no : ∀ x xs, ruLower x ∉ hs → f (x :: xs) = none

end Gnco

namespace Gnco

/-! ## Knowledge base (src/main.py lines 134-241) -/

/-- `tokens_ru`: lowercase, `ё → е`, keep `[a-zа-я0-9\-]`, split on
whitespace. -/
def tokens_ru (text : String) : List String :=
  let t := text.data.map (fun c => yoE (ruLower c))
  wsWords (t.map (fun c => if isTokChar c then c else ' '))

/-- The synonym table `CANON` from src/main.py lines 140-153. -/
def CANON : List (String × String) :=
  [("сколько", "цена"), ("стоит", "цена"), ("стоимость", "цена"),
   ("цена", "цена"), ("прайс", "цена"),
   ("эвакуатор", "эвакуатор"), ("эвакуация", "эвакуатор"),
   ("забор", "эвакуатор"), ("доставка", "эвакуатор"),
   ("pickup", "эвакуатор"), ("пикап", "эвакуатор"), ("tow", "эвакуатор"),
   ("адрес", "адрес"), ("где", "адрес"), ("находитесь", "адрес"),
   ("локация", "адрес"), ("местоположение", "адрес"), ("куда", "адрес"),
   ("как", "адрес"), ("доехать", "адрес"), ("добраться", "адрес"),
   ("диагностика", "диагностика"), ("осмотр", "диагностика"),
   ("проверка", "диагностика"),
   ("запчасти", "запчасти"), ("детали", "запчасти"),
   ("комплектующие", "запчасти"), ("наличие", "запчасти")]

/-- `CANON.get(t, t)`. -/
def canonOf (t : String) : String :=
  match CANON.lookup t with
  | some c => c
  | none => t

/-- `canonical_tokens` from src/main.py. -/
def canonical_tokens (text : String) : List String :=
  (tokens_ru text).map canonOf

/-- The Python `set(canonical_tokens(text))`, modelled as the deduplicated
token list. -/
def ctokSet (text : String) : List String := (canonical_tokens text).dedup

/-- Fixed company configuration (environment defaults from src/main.py). -/
def COMPANY_NAME : String := "GNCO"

def COMPANY_ADDRESS : String := "94 Hurd Street, Newton Park, PE"

def CITY : String := "Port Elizabeth (Gqeberha)"

def WORKING_HOURS : String := "Ежедневно 09:00–18:00"

def WHATSAPP_NUMBER : String := "+27XXXXXXXXXX"

def CURRENCY : String := "R"

def TOW_PRICE_LOCAL : String := "300"

structure KBItem where
  title : String
  tags : List String
  answer : String
deriving DecidableEq

/-- KB entry 1 of `default_kb()`. -/
def kbHours : KBItem :=
  { title := "Часы работы",
    tags := ["часы", "время", "режим", "работы", "когда", "открыты",
             "выходные"],
    answer := COMPANY_NAME ++ " работает: " ++ WORKING_HOURS ++
      ". Адрес: " ++ COMPANY_ADDRESS ++ "." }

/-- KB entry 2 of `default_kb()`. -/
def kbAddress : KBItem :=
  { title := "Адрес и как добраться",
    tags := ["адрес", "где", "находимся", "локация", "как добраться",
             "местоположение", "карта", "локацию", "куда ехать"],
    answer := "Наш адрес: " ++ COMPANY_ADDRESS ++ ". Город: " ++ CITY ++
      ". Если неудобно ехать — можем забрать мотоцикл по городу за " ++
      CURRENCY ++ TOW_PRICE_LOCAL ++ "." }

/-- KB entry 3 of `default_kb()`. -/
def kbTow : KBItem :=
  { title := "Забор/доставка мотоцикла по городу",
    tags := ["эвакуатор", "доставка", "забор", "по городу", "стоимость",
             "цена", "вызов", "эвакуация", "pickup", "tow"],
    answer := "В пределах " ++ CITY ++
      " забор/доставка мотоцикла стоит фиксировано " ++ CURRENCY ++
      TOW_PRICE_LOCAL ++
      ". За город — по расстоянию. Напишите район/адрес и время — всё организуем." }

/-- KB entry 4 of `default_kb()`. -/
def kbTiming : KBItem :=
  { title := "Сроки ремонта",
    tags := ["срок", "когда", "сколько времени", "готовность", "очередь",
             "время"],
    answer := "Сроки зависят от загрузки и наличия запчастей. После первичной диагностики дадим точный план и сроки." }

/-- KB entry 5 of `default_kb()`. -/
def kbDiag : KBItem :=
  { title := "Диагностика и стоимость",
    tags := ["сколько стоит", "цена", "стоимость", "диагностика", "прайс",
             "расценки", "осмотр"],
    answer := "Перед началом работ делаем осмотр и согласовываем бюджет. Финальная стоимость известна после диагностики." }

/-- KB entry 6 of `default_kb()`. -/
def kbParts : KBItem :=
  { title := "Запчасти и наличие",
    tags := ["запчасти", "наличие", "детали", "комплектующие", "каталог",
             "заказ", "vin"],
    answer := "Подберём детали по VIN/модели. Работаем с проверенными поставщиками; при необходимости закажем." }

/-- KB entry 7 of `default_kb()`. -/
def kbContacts : KBItem :=
  { title := "Контакты",
    tags := ["контакты", "связаться", "номер", "телефон", "ватсап",
             "whatsapp"],
    answer := "Быстрее всего — WhatsApp " ++ WHATSAPP_NUMBER ++
      ". Можно писать и сюда в чат." }

/-- KB entry 8 of `default_kb()`. -/
def kbWarranty : KBItem :=
  { title := "Гарантия и качество",
    tags := ["гарантия", "качество", "возврат", "повторный ремонт"],
    answer := "Даем гарантию на выполненные работы и использованные запчасти. Все согласуем заранее." }

/-- `default_kb()` from src/main.py with the default configuration strings
substituted. `kb.json` is absent from the repository, so the loaded `KB`
equals this list. -/
def KB : List KBItem :=
  [kbHours, kbAddress, kbTow, kbTiming, kbDiag, kbParts, kbContacts,
   kbWarranty]

/-- The text scored for one KB item:
`" ".join(item["tags"]) + " " + item["title"]`. -/
def kbTagText (it : KBItem) : String :=
  String.intercalate " " it.tags ++ " " ++ it.title

/-- `len(q & t)` for the canonical query token set `q` (already
deduplicated) and the item's canonical tag-plus-title token set. -/
def kbScore (q : List String) (it : KBItem) : Nat :=
  (q.filter (fun x => (canonical_tokens (kbTagText it)).contains x)).length

/-- One iteration of the best-score loop in `kb_search`. -/
def kbStep (sc : KBItem → Nat) (acc : Nat × Option String) (it : KBItem) :
    Nat × Option String :=
  if acc.1 < sc it then (sc it, some it.answer) else acc

/-- The best-score loop of `kb_search`. -/
def kbFold (sc : KBItem → Nat) (kb : List KBItem) (acc : Nat × Option String) :
    Nat × Option String :=
  kb.foldl (kbStep sc) acc

/-- `kb_search` from src/main.py lines 215-230: take the best-scoring entry
(first wins on ties); accept at score ≥ 1 when the query mentions "адрес" or
"эвакуатор", otherwise at score ≥ 2. -/
def kb_search (query : String) : Option String :=
  if query = "" then none
  else if ("адрес" ∈ ctokSet query ∨ "эвакуатор" ∈ ctokSet query) ∧
      1 ≤ (kbFold (kbScore (ctokSet query)) KB (0, none)).1 then
    (kbFold (kbScore (ctokSet query)) KB (0, none)).2
  else if 2 ≤ (kbFold (kbScore (ctokSet query)) KB (0, none)).1 then
    (kbFold (kbScore (ctokSet query)) KB (0, none)).2
  else none

/-- `quick_intent_answer` from src/main.py lines 233-241. -/
def quick_intent_answer (text : String) : Option String :=
  let q := ctokSet text
  if "эвакуатор" ∈ q then
    some ("По " ++ CITY ++ " забор/доставка мотоцикла — фикс " ++ CURRENCY ++
      TOW_PRICE_LOCAL ++
      ". За город — по расстоянию. Напишите район/адрес и удобное время — всё организуем.")
  else if "адрес" ∈ q then
    some ("Наш адрес: " ++ COMPANY_ADDRESS ++ ". Работаем: " ++
      WORKING_HOURS ++
      ". Если неудобно ехать — можем забрать мотоцикл по городу за " ++
      CURRENCY ++ TOW_PRICE_LOCAL ++ ".")
  else none

/-! ## ai_reply (src/main.py lines 288-329)

The completion API is an external collaborator; its responses are an oracle
`status : Nat → Option Nat` (the HTTP status of the i-th attempt, `none`
for an exception raised by the attempt) and `content : Nat → String` (the
completion text of the i-th attempt when its status is 200).  The result
triple is (reply text, sleep delays in seconds, HTTP attempts made). -/

def AI_RETRYABLE : List Nat := [429, 500, 502, 503, 504]

/-- The fixed reply after the retry loop is exhausted. -/
def AI_OVERLOAD_REPLY : String :=
  "Сейчас высокая нагрузка. Давайте продолжим чат, а я попробую ещё раз."

/-- The fixed reply when no `OPENAI_API_KEY` is configured. -/
def AI_NOKEY_REPLY : String :=
  "Расскажите чуть подробнее, что случилось — подскажу и предложу следующий шаг. Если понадобится, оформлю обращение."

/-- The technical-error reply for a non-retryable non-200 status. -/
def aiTechError (status : Nat) : String :=
  "Техническая ошибка AI: HTTP " ++ toString status

/-- Post-processing of a 200 response: strip, truncate to 1200 characters,
and replace by `DIY_SAFE_REPLY` if the text itself looks like DIY
instructions or contains a repair-verb stem. -/
def aiPostProcess (content : String) : String :=
  let t := strTake (pyStrip content) 1200
  if is_diy_request t || hasRepairVerb t then DIY_SAFE_REPLY else t

/-- Bookkeeping for one failed attempt: record the sleep of the current
backoff and one more HTTP attempt. -/
def retryStep (r : String × List Nat × Nat) (backoff : Nat) :
    String × List Nat × Nat :=
  (r.1, backoff :: r.2.1, r.2.2 + 1)

/-- The `for _ in range(5)` retry loop of `ai_reply`, with
`backoff = min(backoff * 2, 16)` after each failed attempt. -/
def aiLoop (status : Nat → Option Nat) (content : Nat → String) :
    Nat → Nat → Nat → String × List Nat × Nat
  | 0, _, _ => (AI_OVERLOAD_REPLY, [], 0)
  | fuel + 1, i, backoff =>
    match status i with
    | some s =>
      if s = 200 then (aiPostProcess (content i), [], 1)
      else if s ∈ AI_RETRYABLE then
        retryStep (aiLoop status content fuel (i + 1) (min (backoff * 2) 16))
          backoff
      else (aiTechError s, [], 1)
    | none =>
      retryStep (aiLoop status content fuel (i + 1) (min (backoff * 2) 16))
        backoff

/-- `ai_reply` from src/main.py.  Without a key the fixed fallback string is
returned before any HTTP client is created.  The assembled message list
(system prompt, KB context from `kb_search`, history, user text) only feeds
the oracle-driven completion call, so it does not appear in the result. -/
def ai_reply (hasKey : Bool) (status : Nat → Option Nat)
    (content : Nat → String) (user_text : String)
    (history : List (String × String)) : String × List Nat × Nat :=
  if hasKey = false then (AI_NOKEY_REPLY, [], 0)
  else aiLoop status content 5 0 1

/-- Outcome oracle for the single completion call of src/wa_server.py. -/
inductive WaOutcome where
  | ok (content : String)
  | exc (msg : String)

/-- `ai_reply` from src/wa_server.py lines 15-38: without a key it echoes
the user text (no HTTP call); with a key it makes one HTTP call whose
outcome the oracle decides.  Result: (reply, HTTP attempts). -/
def wa_ai_reply (hasKey : Bool) (outcome : WaOutcome) (text : String)
    (user_id : String) : String × Nat :=
  if hasKey = false then ("Эхо: " ++ text, 0)
  else
    match outcome with
    | .ok content => (pyStrip content, 1)
    | .exc msg => ("Техническая пауза: " ++ msg, 1)

/-! ## handle_text (src/main.py lines 343-459)

The per-message router, embedded as a pure function of the configuration,
the collaborator oracles, the Telegram display name, the inbound text and
the session, producing the new session and an effect trace. -/

structure BotConfig where
  channel : String
  hasRO : Bool
  hasOpenAI : Bool

/-- Outcome oracle for `RO.create_inquiry`. -/
inductive CrmOutcome where
  | ok (id : Nat)
  | httpErr (status : Nat) (body : String)
  | exc (msg : String)

structure Oracle where
  crm : CrmOutcome
  status : Nat → Option Nat
  content : Nat → String
  hintIdx : Nat

/-- The per-conversation `context.user_data` state used by the handlers. -/
structure Session where
  await_name : Bool := false
  name : Option String := none
  phone : Option String := none
  hist : List (String × String) := []
  inquiry_id : Option Nat := none
  hint_count : Nat := 0

/-- The payload of one `create_inquiry` call. -/
structure CrmRequest where
  contact_phone : String
  contact_name : String
  title : String
  description : String

/-- The observable outcome of one `handle_text` turn. -/
structure BotResult where
  session : Session
  replies : List String
  crm : List CrmRequest
  aiCalls : Nat
  aiHttpCalls : Nat

def PHONE_HINTS : List String :=
  ["Если хотите оформить обращение — пришлите номер в формате +XXXXXXXXXXX, всё сделаю.",
   "Готов оформить заявку — просто пришлите номер телефона в формате +XXXXXXXXXXX.",
   "Чтобы закрепить запрос и передать мастеру, нужен номер в формате +XXXXXXXXXXX."]

/-- `maybe_phone_hint` from src/main.py lines 363-368 (`random.choice`
modelled by the oracle index). -/
def maybe_phone_hint (cfg : BotConfig) (hintIdx : Nat) (st : Session) :
    String × Session :=
  if cfg.channel = "whatsapp" ∨ st.phone.isSome then ("", st)
  else
    ((if st.hint_count % 3 = 0 then
        PHONE_HINTS.getD (hintIdx % PHONE_HINTS.length) ""
      else ""),
     { st with hint_count := st.hint_count + 1 })

/-- `ROAPP_SOURCE` default: "Telegram" / "WhatsApp" by channel. -/
def roappSource (cfg : BotConfig) : String :=
  if cfg.channel = "telegram" then "Telegram" else "WhatsApp"

/-- `"\n".join(x["content"] for x in hist[-3:] if x["role"] == "user")`. -/
def lastUserMsgs (hist : List (String × String)) : String :=
  String.intercalate "\n"
    (((hist.drop (hist.length - 3)).filter (fun x => x.1 = "user")).map
      (fun x => x.2))

/-- Branch 2 of `handle_text`: a phone number was extracted. -/
def handlePhone (cfg : BotConfig) (o : Oracle) (tgName : String)
    (phone : String) (st0 : Session) : BotResult :=
  let name := st0.name.getD tgName
  let st := { st0 with phone := some phone }
  if cfg.hasRO = false then
    if cfg.channel = "whatsapp" ∧ st.name.isNone then
      { session := { st with await_name := true },
        replies := ["Принял номер: <b>" ++ phone ++ "</b>. Зафиксировал запрос.",
                    "Кстати, как к вам обращаться?"],
        crm := [], aiCalls := 0, aiHttpCalls := 0 }
    else
      { session := st,
        replies := ["Принял номер: <b>" ++ phone ++ "</b>. Зафиксировал запрос."],
        crm := [], aiCalls := 0, aiHttpCalls := 0 }
  else
    let req : CrmRequest :=
      { contact_phone := phone, contact_name := name,
        title := "Запрос на ремонт/запчасти",
        description := strTake ("Источник: " ++ roappSource cfg ++
          ". Недавние сообщения:\n" ++ lastUserMsgs st0.hist) 900 }
    match o.crm with
    | .ok id =>
      { session := { st with inquiry_id := some id },
        replies := ["Готово! ✅ Заявка создана в CRM (ID: <b>" ++ toString id ++
          "</b>).\nНомер: <b>" ++ phone ++ "</b>\nИмя: <b>" ++ name ++ "</b>"],
        crm := [req], aiCalls := 0, aiHttpCalls := 0 }
    | .httpErr status body =>
      { session := st,
        replies := ["❌ Не удалось создать заявку в CRM.\nHTTP " ++
          toString status ++ "\n" ++ strTake body 600],
        crm := [req], aiCalls := 0, aiHttpCalls := 0 }
    | .exc msg =>
      { session := st,
        replies := ["❌ Техническая ошибка: " ++ msg],
        crm := [req], aiCalls := 0, aiHttpCalls := 0 }

/-- Branches 2а/3 of `handle_text`: answer directly, asking for a name on
WhatsApp when none is known. -/
def replyWithNameAsk (cfg : BotConfig) (answer : String) (st : Session) :
    BotResult :=
  if cfg.channel = "whatsapp" ∧ st.name.isNone then
    { session := { st with await_name := true },
      replies := [answer ++ "\n\nКак к вам обращаться?"],
      crm := [], aiCalls := 0, aiHttpCalls := 0 }
  else
    { session := st, replies := [answer], crm := [], aiCalls := 0,
      aiHttpCalls := 0 }

/-- Branch 4 of `handle_text`: the completion-API fallback with
sanitization, history push and the periodic phone hint. -/
def handleAi (cfg : BotConfig) (o : Oracle) (text : String) (st0 : Session) :
    BotResult :=
  let r := ai_reply cfg.hasOpenAI o.status o.content text st0.hist
  let reply := sanitize_ai_reply r.1 st0.inquiry_id.isSome
  let st := { st0 with hist := push_history st0.hist "assistant" reply }
  let h := maybe_phone_hint cfg o.hintIdx st
  { session := h.2,
    replies := [if h.1 = "" then reply else reply ++ "\n\n" ++ h.1],
    crm := [], aiCalls := 1, aiHttpCalls := r.2.2 }

/-- `handle_text` from src/main.py lines 370-459. -/
def handle_text (cfg : BotConfig) (o : Oracle) (tgName : String)
    (text0 : String) (st0 : Session) : BotResult :=
  let text := pyStrip text0
  if st0.await_name then
    if looks_like_name text then
      { session := { st0 with name := some text, await_name := false },
        replies := ["Спасибо, " ++ text ++ "! Продолжайте — я помогу."],
        crm := [], aiCalls := 0, aiHttpCalls := 0 }
    else
      { session := st0,
        replies := ["Как к вам обращаться? Имя можно одним словом 🙂"],
        crm := [], aiCalls := 0, aiHttpCalls := 0 }
  else
    let st1 := { st0 with hist := push_history st0.hist "user" text }
    if is_diy_request text then
      { session := st1, replies := [DIY_SAFE_REPLY], crm := [], aiCalls := 0,
        aiHttpCalls := 0 }
    else
      match (if cfg.channel = "telegram" then extract_phone text else none)
        with
      | some phone => handlePhone cfg o tgName phone st1
      | none =>
        match quick_intent_answer text with
        | some qa => replyWithNameAsk cfg qa st1
        | none =>
          match kb_search text with
          | some ans => replyWithNameAsk cfg ans st1
          | none => handleAi cfg o text st1

/-! ## Intake state machine (claim C2)

The structured repair-order form (spec §4.4) is not present in
src/main.py or src/wa_server.py — those files carry only the free-text
router — so the state machine is modelled from the specification. -/

inductive FormState where
  | fsNone | awPhone | awModel | awPlate | awOdometer | awIssue | awConfirm
deriving DecidableEq

/-- The partially filled intake record (spec §3). -/
structure Draft where
  phone : Option String := none
  makeModel : Option String := none
  plate : Option String := none
  odometer : Option Nat := none
  issue : Option String := none
deriving DecidableEq

/-- A completed intake record (spec §3). -/
structure IntakeRecord where
  phone : String
  makeModel : String
  plate : String
  odometer : Nat
  issue : String
deriving DecidableEq

structure IntakeSession where
  state : FormState := FormState.fsNone
  draft : Draft := {}
deriving DecidableEq

/-- Modelled from the spec (§4.1): `normalizePlate` removes whitespace and
any character outside letters/digits, uppercases, truncates to a maximum
length of 10.  Never fails. -/
def normalizePlate (raw : String) : String :=
  String.mk (((raw.data.filter Char.isAlphanum).map Char.toUpper).take 10)

/-- Digits to the natural number they denote. -/
def digitsToNat (ds : List Char) : Nat :=
  ds.foldl (fun a c => a * 10 + (c.toNat - '0'.toNat)) 0

/-- Modelled from the spec (§4.1): `normalizeOdometer` strips non-digit
characters, parses an integer, and fails unless the result is strictly
within (0, 10000000). -/
def normalizeOdometer (raw : String) : Option Nat :=
  let ds := raw.data.filter Char.isDigit
  if ds = [] then none
  else
    let n := digitsToNat ds
    if 0 < n ∧ n < 10000000 then some n else none

/-- Modelled from the spec (§4.4): the explicit cancel command, reachable
from every state; the spec does not fix its literal spelling, `/cancel` is
used here. -/
def isCancelCmd (text : String) : Bool := pyStrip text = "/cancel"

/-- Modelled from the spec (§4.4, §8): the explicit "start form" command,
spelled `/ro` in the §8 end-to-end scenario. -/
def isStartForm (text : String) : Bool := pyStrip text = "/ro"

/-- Modelled from the spec: the length cap for the free-text fields
(`makeModel`, `issue`); the spec requires a cap without fixing the number,
200 is used here. -/
def FORM_CAP : Nat := 200

def truncCap (s : String) : String := strTake s FORM_CAP

/-- Modelled from the spec (§4.4): one transition of the intake state
machine.  Returns the new session, the replies, and the records persisted
by this step. -/
def intakeStep (s : IntakeSession) (input : String) :
    IntakeSession × List String × List IntakeRecord :=
  if isCancelCmd input ∧ s.state ≠ FormState.fsNone then
    (⟨FormState.fsNone, {}⟩, ["Заявка отменена."], [])
  else
    match s.state with
    | .fsNone =>
      if isStartForm input then
        (⟨FormState.awPhone, {}⟩, ["Пришлите номер телефона."], [])
      else (s, [], [])
    | .awPhone =>
      match normalize_phone input with
      | some p =>
        (⟨FormState.awModel, { s.draft with phone := some p }⟩,
          ["Укажите марку и модель."], [])
      | none => (s, ["Номер не распознан, пришлите номер ещё раз."], [])
    | .awModel =>
      (⟨FormState.awPlate, { s.draft with makeModel := some (truncCap input) }⟩,
        ["Укажите госномер."], [])
    | .awPlate =>
      if 3 ≤ (normalizePlate input).length then
        (⟨FormState.awOdometer,
          { s.draft with plate := some (normalizePlate input) }⟩,
          ["Укажите пробег."], [])
      else (s, ["Номер не распознан, укажите госномер ещё раз."], [])
    | .awOdometer =>
      match normalizeOdometer input with
      | some n =>
        (⟨FormState.awIssue, { s.draft with odometer := some n }⟩,
          ["Опишите проблему."], [])
      | none => (s, ["Пробег не распознан, укажите пробег ещё раз."], [])
    | .awIssue =>
      (⟨FormState.awConfirm, { s.draft with issue := some (truncCap input) }⟩,
        ["Проверьте данные. Подтвердить?"], [])
    | .awConfirm =>
      match s.draft.phone, s.draft.makeModel, s.draft.plate, s.draft.odometer,
        s.draft.issue with
      | some p, some m, some pl, some od, some i =>
        (⟨FormState.fsNone, {}⟩, ["Заявка сохранена."],
          [⟨p, m, pl, od, i⟩])
      | _, _, _, _, _ =>
        (⟨FormState.fsNone, {}⟩, ["Данные неполные, начните заново."], [])

/-- Run the intake machine over a list of inputs, collecting the persisted
records. -/
def intakeRun (s : IntakeSession) (inputs : List String) :
    IntakeSession × List IntakeRecord :=
  inputs.foldl
    (fun acc inp =>
      ((intakeStep acc.1 inp).1, acc.2 ++ (intakeStep acc.1 inp).2.2))
    (s, [])

end Gnco

namespace Gnco

/-! ## Theorems for normalize_phone (claims C4, C5) -/

/-- The shape `^\+[0-9]+$`: a `+` followed by one or more ASCII digits. -/
def plusDigitsForm (r : String) : Prop :=
  ∃ ds : List Char, r.data = '+' :: ds ∧ ds ≠ [] ∧ ∀ c ∈ ds, c.isDigit = true

lemma digitsOf_digits (s : String) : ∀ c ∈ digitsOf s, c.isDigit = true := by
  intro c hc
  exact (List.mem_filter.mp hc).2

/-- C4: `normalize_phone` returns `none` or a string matching `^\+[0-9]+$`;
`normalize_phone "+27 71 234 5678" = some "+27712345678"`;
`normalize_phone "" = none`. -/
theorem normalize_phone_spec :
    (∀ raw, normalize_phone raw = none ∨
      ∃ r, normalize_phone raw = some r ∧ plusDigitsForm r) ∧
    normalize_phone "+27 71 234 5678" = some "+27712345678" ∧
    normalize_phone "" = none := by
  refine ⟨?_, by decide, by decide⟩
  intro raw
  unfold normalize_phone
  by_cases h0 : raw = ""
  · simp [h0]
  · rw [if_neg h0]
    by_cases hlen : 7 ≤ (digitsOf raw).length ∧ (digitsOf raw).length ≤ 15
    · rw [if_pos hlen]
      right
      refine ⟨_, rfl, digitsOf raw, rfl, ?_, digitsOf_digits raw⟩
      intro hnil
      rw [hnil] at hlen
      simp at hlen
    · rw [if_neg hlen]
      left
      rfl

/-- C5 counterexample: the claim says `normalize_phone` fails exactly when
the digit count is zero, but `"123"` has 3 digits and still maps to `none`
(the source requires 7..15 digits). -/
theorem normalize_phone_c5_counterexample :
    normalize_phone "123" = none ∧ (digitsOf "123").length = 3 := by
  decide

/-- C5 amended: `normalize_phone` strips all non-digit characters and returns
`none` exactly when the remaining digit count lies outside 7..15; for every
input with 7 to 15 digits it returns `+` followed by those digits. -/
theorem normalize_phone_digits_range (raw : String) :
    normalize_phone raw =
      if 7 ≤ (digitsOf raw).length ∧ (digitsOf raw).length ≤ 15 then
        some (String.mk ('+' :: digitsOf raw))
      else none := by
  unfold normalize_phone
  by_cases h0 : raw = ""
  · subst h0
    have : digitsOf "" = [] := by decide
    simp [this]
  · rw [if_neg h0]

/-! ## Theorems for push_history (claim C8) -/

lemma trimHist_eq_drop (l : List (String × String)) :
    trimHist l = l.drop (l.length - MAX_HISTORY) := by
  by_cases h : MAX_HISTORY < l.length
  · rw [trimHist, dif_pos h, trimHist_eq_drop (l.drop 1)]
    simp only [List.length_drop, List.drop_drop]
    congr 1
    omega
  · rw [trimHist, dif_neg h]
    have : l.length - MAX_HISTORY = 0 := by omega
    rw [this, List.drop_zero]
termination_by l.length
decreasing_by
  simp only [List.length_drop]
  omega

/-- C8: the history is bounded by 6 entries after any sequence of pushes, and
each effective push keeps a contiguous suffix of the appended list (oldest
entries evicted first, surviving order preserved). -/
theorem push_history_bounded :
    (∀ ops : List (String × String),
      (ops.foldl (fun st rc => push_history st rc.1 rc.2) []).length
        ≤ MAX_HISTORY) ∧
    (∀ store role content, content ≠ "" →
      push_history store role content =
        (store ++ [(role, strTake (pyStrip content) 2000)]).drop
          (store.length + 1 - MAX_HISTORY)) := by
  constructor
  · have step : ∀ (st : List (String × String)) r c,
        st.length ≤ MAX_HISTORY → (push_history st r c).length ≤ MAX_HISTORY := by
      intro st r c h
      unfold push_history
      by_cases hc : c = ""
      · simpa [hc] using h
      · rw [if_neg hc, trimHist_eq_drop]
        simp only [List.length_drop, List.length_append]
        omega
    have main : ∀ (ops : List (String × String))
        (init : List (String × String)), init.length ≤ MAX_HISTORY →
        (ops.foldl (fun st rc => push_history st rc.1 rc.2)
          init).length ≤ MAX_HISTORY := by
      intro ops
      induction ops with
      | nil => intro init h; simpa using h
      | cons op rest ih =>
        intro init h
        exact ih _ (step _ _ _ h)
    intro ops
    exact main ops [] (by simp [MAX_HISTORY])
  · intro store role content hc
    unfold push_history
    rw [if_neg hc, trimHist_eq_drop]
    simp only [List.length_append, List.length_cons, List.length_nil]

/-! ## Combinator metatheory: matcher lemmas -/

lemma ruLower_stop {c : Char} (h : isStopChar c = true) : ruLower c = c := by
  have hc : c = '.' ∨ c = '!' ∨ c = '?' := by
    simp only [isStopChar, Bool.or_eq_true, decide_eq_true_eq] at h
    tauto
  rcases hc with rfl | rfl | rfl <;> decide

lemma ws_not_stop {c : Char} (h : isWsChar c = true) : isStopChar c = false := by
  have hc : c = ' ' ∨ c = '\t' ∨ c = '\n' ∨ c = '\r' ∨ c = '\x0b' ∨
      c = '\x0c' := by
    simp only [isWsChar, Bool.or_eq_true, decide_eq_true_eq] at h
    tauto
  rcases hc with rfl | rfl | rfl | rfl | rfl | rfl <;> decide

lemma mLit_cons_some {p : Char} {ps : List Char} {x : Char} {xs : List Char}
    {n : Nat} (h : mLit (p :: ps) (x :: xs) = some n) :
    ruLower x = p ∧ ∃ m, mLit ps xs = some m ∧ n = m + 1 := by
  by_cases hx : ruLower x = p
  · rw [mLit, if_pos hx] at h
    cases hm : mLit ps xs with
    | none => rw [hm] at h; simp at h
    | some m =>
      rw [hm] at h
      simp only [Option.map_some'] at h
      exact ⟨hx, m, rfl, (Option.some.inj h).symm⟩
  · rw [mLit, if_neg hx] at h
    simp at h

lemma mLit_length : ∀ (ps l : List Char) (n : Nat),
    mLit ps l = some n → n = ps.length := by
  intro ps
  induction ps with
  | nil =>
    intro l n h
    simp only [mLit] at h
    simp [← Option.some.inj h]
  | cons p ps ih =>
    intro l n h
    cases l with
    | nil => simp [mLit] at h
    | cons x xs =>
      obtain ⟨hx, m, hm, rfl⟩ := mLit_cons_some h
      simp [ih xs m hm]

lemma mLit_bdd : ∀ (ps l : List Char) (n : Nat),
    mLit ps l = some n → n ≤ l.length := by
  intro ps
  induction ps with
  | nil =>
    intro l n h
    simp only [mLit] at h
    simp [← Option.some.inj h]
  | cons p ps ih =>
    intro l n h
    cases l with
    | nil => simp [mLit] at h
    | cons x xs =>
      obtain ⟨hx, m, hm, rfl⟩ := mLit_cons_some h
      have := ih xs m hm
      simp only [List.length_cons]
      omega

lemma mLit_map : ∀ (ps l : List Char) (n : Nat),
    mLit ps l = some n → (l.take n).map ruLower = ps := by
  intro ps
  induction ps with
  | nil =>
    intro l n h
    simp only [mLit] at h
    simp [← Option.some.inj h]
  | cons p ps ih =>
    intro l n h
    cases l with
    | nil => simp [mLit] at h
    | cons x xs =>
      obtain ⟨hx, m, hm, rfl⟩ := mLit_cons_some h
      simp [List.take_succ_cons, ih xs m hm, hx]

lemma mLit_grow : ∀ (ps l e : List Char) (n : Nat),
    mLit ps l = some n → mLit ps (l ++ e) = some n := by
  intro ps
  induction ps with
  | nil =>
    intro l e n h
    simp only [mLit] at h ⊢
    exact h
  | cons p ps ih =>
    intro l e n h
    cases l with
    | nil => simp [mLit] at h
    | cons x xs =>
      obtain ⟨hx, m, hm, rfl⟩ := mLit_cons_some h
      have hih : mLit ps (xs ++ e) = some m := ih xs e m hm
      rw [List.cons_append, mLit, if_pos hx, hih, Option.map_some']

lemma mLit_shrink : ∀ (ps l e : List Char) (n : Nat),
    mLit ps (l ++ e) = some n → n ≤ l.length → mLit ps l = some n := by
  intro ps
  induction ps with
  | nil =>
    intro l e n h hn
    simp only [mLit] at h ⊢
    exact h
  | cons p ps ih =>
    intro l e n h hn
    cases l with
    | nil =>
      exfalso
      have hlen := mLit_length _ _ _ h
      simp only [List.length_cons] at hlen
      simp only [List.length_nil] at hn
      omega
    | cons x xs =>
      rw [List.cons_append] at h
      obtain ⟨hx, m, hm, rfl⟩ := mLit_cons_some h
      have hm2 : mLit ps xs = some m := by
        refine ih xs e m hm ?_
        simp only [List.length_cons] at hn
        omega
      rw [mLit, if_pos hx, hm2, Option.map_some']

/-- `MT` for a nonempty stopper-free literal. -/
lemma MT_lit (p : Char) (ps : List Char)
    (hstop : ∀ c ∈ p :: ps, isStopChar c = false) : MT (mLit (p :: ps)) := by
  refine ⟨?_, fun l n h => mLit_bdd _ l n h, fun l e n h => mLit_grow _ l e n h,
    fun l e n h hn => mLit_shrink _ l e n h hn, ?_, by rw [mLit]⟩
  · intro l n h
    have hn := mLit_length _ l n h
    simp only [List.length_cons] at hn
    omega
  · intro l n h c hc
    have hmem : ruLower c ∈ p :: ps := by
      rw [← mLit_map _ l n h]
      exact List.mem_map_of_mem ruLower hc
    have hlow := hstop _ hmem
    cases hb : isStopChar c with
    | false => rfl
    | true =>
      rw [ruLower_stop hb] at hlow
      rw [hb] at hlow
      exact hlow

/-- `MH` for a nonempty stopper-free literal: matches start with the
literal's first character. -/
lemma MH_lit (p : Char) (ps : List Char)
    (hstop : ∀ c ∈ p :: ps, isStopChar c = false) :
    MH (mLit (p :: ps)) [p] := by
  refine ⟨MT_lit p ps hstop, ?_, ?_⟩
  · intro l n h
    cases l with
    | nil => simp [mLit] at h
    | cons x xs =>
      obtain ⟨hx, -⟩ := mLit_cons_some h
      exact ⟨x, xs, rfl, by simp [hx]⟩
  · intro x xs hx
    rw [mLit, if_neg (by simpa using hx)]

lemma mSeq_eq_some {f g : List Char → Option Nat} {l : List Char} {n : Nat} :
    mSeq f g l = some n ↔
      ∃ a b, f l = some a ∧ g (l.drop a) = some b ∧ n = a + b := by
  constructor
  · intro h
    unfold mSeq at h
    split at h
    next hf => simp at h
    next a hf =>
      split at h
      next hg => simp at h
      next b hg => exact ⟨a, b, hf, hg, (Option.some.inj h).symm⟩
  · rintro ⟨a, b, hf, hg, rfl⟩
    simp only [mSeq, hf, hg]

lemma MT_seq {f g : List Char → Option Nat} (hf : MT f) (hg : MT g) :
    MT (mSeq f g) := by
  refine ⟨?_, ?_, ?_, ?_, ?_, ?_⟩
  · intro l n h
    obtain ⟨a, b, hfa, hgb, rfl⟩ := mSeq_eq_some.mp h
    have := hf.pos l a hfa
    omega
  · intro l n h
    obtain ⟨a, b, hfa, hgb, rfl⟩ := mSeq_eq_some.mp h
    have h1 := hf.bdd l a hfa
    have h2 := hg.bdd _ b hgb
    simp only [List.length_drop] at h2
    omega
  · intro l e n h
    obtain ⟨a, b, hfa, hgb, rfl⟩ := mSeq_eq_some.mp h
    have ha := hf.bdd l a hfa
    refine mSeq_eq_some.mpr ⟨a, b, hf.grow l e a hfa, ?_, rfl⟩
    rw [List.drop_append_of_le_length ha]
    exact hg.grow _ e b hgb
  · intro l e n h hn
    obtain ⟨a, b, hfa, hgb, rfl⟩ := mSeq_eq_some.mp h
    have ha : a ≤ l.length := by
      have := hg.pos _ b hgb
      omega
    have hfa2 : f l = some a := hf.shrink l e a hfa ha
    rw [List.drop_append_of_le_length ha] at hgb
    have hgb2 : g (l.drop a) = some b := by
      refine hg.shrink _ e b hgb ?_
      simp only [List.length_drop]
      omega
    exact mSeq_eq_some.mpr ⟨a, b, hfa2, hgb2, rfl⟩
  · intro l n h c hc
    obtain ⟨a, b, hfa, hgb, rfl⟩ := mSeq_eq_some.mp h
    rw [List.take_add l a b] at hc
    rcases List.mem_append.mp hc with hc | hc
    · exact hf.nostop l a hfa c hc
    · exact hg.nostop _ b hgb c hc
  · unfold mSeq
    rw [hf.nil]

lemma MH_seq {f g : List Char → Option Nat} {hs : List Char} (hf : MH f hs)
    (hg : MT g) : MH (mSeq f g) hs := by
  refine ⟨MT_seq hf.mt hg, ?_, ?_⟩
  · intro l n h
    obtain ⟨a, b, hfa, -, -⟩ := mSeq_eq_some.mp h
    exact hf.head_mem l a hfa
  · intro x xs hx
    unfold mSeq
    rw [hf.head_no x xs hx]

lemma takeWhile_length_le (p : Char → Bool) (l : List Char) :
    (l.takeWhile p).length ≤ l.length :=
  (List.takeWhile_prefix p).length_le

lemma takeWhile_append_of_lt (p : Char → Bool) :
    ∀ (l e : List Char), (l.takeWhile p).length < l.length →
      (l ++ e).takeWhile p = l.takeWhile p := by
  intro l
  induction l with
  | nil => intro e h; simp at h
  | cons c cs ih =>
    intro e h
    cases hp : p c with
    | true =>
      rw [List.takeWhile_cons, hp] at h
      simp only [if_true, List.length_cons] at h
      rw [List.cons_append, List.takeWhile_cons, hp]
      simp only [if_true, List.takeWhile_cons, hp]
      rw [ih e (by omega)]
    | false =>
      simp [List.takeWhile_cons, hp]

lemma takeWhile_append_eq_of_lt (p : Char → Bool) :
    ∀ (l e : List Char), ((l ++ e).takeWhile p).length < l.length →
      l.takeWhile p = (l ++ e).takeWhile p := by
  intro l
  induction l with
  | nil => intro e h; simp at h
  | cons c cs ih =>
    intro e h
    cases hp : p c with
    | true =>
      rw [List.cons_append, List.takeWhile_cons, hp] at h
      simp only [if_true, List.length_cons] at h
      simp only [List.cons_append, List.takeWhile_cons, hp, if_true]
      rw [ih e (by omega)]
    | false =>
      simp [List.takeWhile_cons, hp]

lemma take_takeWhile_length (p : Char → Bool) (l : List Char) :
    l.take (l.takeWhile p).length = l.takeWhile p := by
  obtain ⟨t, ht⟩ := (List.takeWhile_prefix p : l.takeWhile p <+: l)
  calc l.take (l.takeWhile p).length
      = (l.takeWhile p ++ t).take (l.takeWhile p).length := by rw [ht]
    _ = l.takeWhile p := List.take_left _ _

lemma mWsSeq_eq_some {g : List Char → Option Nat} {l : List Char} {n : Nat} :
    mWsSeq g l = some n ↔
      (l.takeWhile isWsChar).length ≠ 0 ∧
        ∃ b, g (l.drop (l.takeWhile isWsChar).length) = some b ∧
          n = (l.takeWhile isWsChar).length + b := by
  constructor
  · intro h
    unfold mWsSeq at h
    split at h
    · simp at h
    · next hw =>
      split at h
      next hg => simp at h
      next b hg => exact ⟨hw, b, hg, (Option.some.inj h).symm⟩
  · rintro ⟨hw, b, hg, rfl⟩
    simp only [mWsSeq, if_neg hw, hg]

lemma MT_ws {g : List Char → Option Nat} (hg : MT g) : MT (mWsSeq g) := by
  refine ⟨?_, ?_, ?_, ?_, ?_, ?_⟩
  · intro l n h
    obtain ⟨hw, b, hgb, rfl⟩ := mWsSeq_eq_some.mp h
    omega
  · intro l n h
    obtain ⟨hw, b, hgb, rfl⟩ := mWsSeq_eq_some.mp h
    have h1 := takeWhile_length_le isWsChar l
    have h2 := hg.bdd _ b hgb
    simp only [List.length_drop] at h2
    omega
  · intro l e n h
    obtain ⟨hw, b, hgb, rfl⟩ := mWsSeq_eq_some.mp h
    have hlt : (l.takeWhile isWsChar).length < l.length := by
      rcases Nat.lt_or_ge (l.takeWhile isWsChar).length l.length with h1 | h1
      · exact h1
      · exfalso
        have hnil : l.drop (l.takeWhile isWsChar).length = [] :=
          List.drop_eq_nil_iff.mpr h1
        rw [hnil, hg.nil] at hgb
        simp at hgb
    have hw2 := takeWhile_append_of_lt isWsChar l e hlt
    refine mWsSeq_eq_some.mpr ⟨by rw [hw2]; exact hw, b, ?_, by rw [hw2]⟩
    rw [hw2, List.drop_append_of_le_length (by omega)]
    exact hg.grow _ e b hgb
  · intro l e n h hn
    obtain ⟨hw, b, hgb, rfl⟩ := mWsSeq_eq_some.mp h
    have hbpos := hg.pos _ b hgb
    have hlt : ((l ++ e).takeWhile isWsChar).length < l.length := by omega
    have hw2 := takeWhile_append_eq_of_lt isWsChar l e hlt
    rw [← hw2] at hw hgb hn ⊢
    have hwle := takeWhile_length_le isWsChar l
    rw [List.drop_append_of_le_length (by omega)] at hgb
    refine mWsSeq_eq_some.mpr ⟨hw, b, ?_, rfl⟩
    refine hg.shrink _ e b hgb ?_
    simp only [List.length_drop]
    omega
  · intro l n h c hc
    obtain ⟨hw, b, hgb, rfl⟩ := mWsSeq_eq_some.mp h
    rw [List.take_add l _ b] at hc
    rcases List.mem_append.mp hc with hc | hc
    · rw [take_takeWhile_length] at hc
      exact ws_not_stop (List.mem_takeWhile_imp hc)
    · exact hg.nostop _ b hgb c hc
  · simp [mWsSeq]

lemma mAlt_eq_some {f g : List Char → Option Nat} {l : List Char} {n : Nat} :
    mAlt f g l = some n ↔ f l = some n ∨ (f l = none ∧ g l = some n) := by
  cases hf : f l with
  | some m => simp [mAlt, hf]
  | none => simp [mAlt, hf]

lemma MH_alt {f g : List Char → Option Nat} {hs1 hs2 : List Char}
    (hf : MH f hs1) (hg : MH g hs2) (hd : ∀ c ∈ hs1, c ∉ hs2) :
    MH (mAlt f g) (hs1 ++ hs2) := by
  refine ⟨⟨?_, ?_, ?_, ?_, ?_, ?_⟩, ?_, ?_⟩
  · intro l n h
    rcases mAlt_eq_some.mp h with h | ⟨-, h⟩
    · exact hf.mt.pos l n h
    · exact hg.mt.pos l n h
  · intro l n h
    rcases mAlt_eq_some.mp h with h | ⟨-, h⟩
    · exact hf.mt.bdd l n h
    · exact hg.mt.bdd l n h
  · intro l e n h
    rcases mAlt_eq_some.mp h with h | ⟨hfn, h⟩
    · exact mAlt_eq_some.mpr (Or.inl (hf.mt.grow l e n h))
    · obtain ⟨x, xs, rfl, hxm⟩ := hg.head_mem l n h
      refine mAlt_eq_some.mpr (Or.inr ⟨?_, ?_⟩)
      · rw [List.cons_append]
        exact hf.head_no x _ (fun hmem => hd _ hmem hxm)
      · exact hg.mt.grow _ e n h
  · intro l e n h hn
    rcases mAlt_eq_some.mp h with h | ⟨hfn, h⟩
    · exact mAlt_eq_some.mpr (Or.inl (hf.mt.shrink l e n h hn))
    · have hpos := hg.mt.pos _ n h
      cases l with
      | nil =>
        exfalso
        simp only [List.length_nil] at hn
        omega
      | cons x xs =>
        rw [List.cons_append] at h
        obtain ⟨y, ys, hey, hym⟩ := hg.head_mem _ n h
        have hx : ruLower x ∈ hs2 := by
          rw [(List.cons.inj hey).1]
          exact hym
        refine mAlt_eq_some.mpr (Or.inr ⟨?_, ?_⟩)
        · exact hf.head_no x xs (fun hmem => hd _ hmem hx)
        · exact hg.mt.shrink _ e n h hn
  · intro l n h c hc
    rcases mAlt_eq_some.mp h with h | ⟨-, h⟩
    · exact hf.mt.nostop l n h c hc
    · exact hg.mt.nostop l n h c hc
  · unfold mAlt
    rw [hf.mt.nil, hg.mt.nil]
  · intro l n h
    rcases mAlt_eq_some.mp h with h | ⟨-, h⟩
    · obtain ⟨x, xs, rfl, hm⟩ := hf.head_mem l n h
      exact ⟨x, xs, rfl, List.mem_append.mpr (Or.inl hm)⟩
    · obtain ⟨x, xs, rfl, hm⟩ := hg.head_mem l n h
      exact ⟨x, xs, rfl, List.mem_append.mpr (Or.inr hm)⟩
  · intro x xs hx
    unfold mAlt
    rw [hf.head_no x xs (fun hmem => hx (List.mem_append.mpr (Or.inl hmem))),
      hg.head_no x xs (fun hmem => hx (List.mem_append.mpr (Or.inr hmem)))]

/-! ## The BOOKING_PHRASES matcher is well-behaved -/

lemma mh_bookingA1 : MH bookingA1 ['з'] := by
  refine MH_seq (MH_lit 'з' "апис".data (by decide)) ?_
  exact (MH_alt (MH_lit 'а' "л".data (by decide))
    (MH_lit 'ы' "ваю".data (by decide)) (by decide)).mt

lemma mh_bookingA2 : MH bookingA2 ['о'] := by
  refine MH_seq (MH_lit 'о' "форм".data (by decide)) ?_
  exact (MH_alt (MH_lit 'и' "л".data (by decide))
    (MH_lit 'л' "яю".data (by decide)) (by decide)).mt

lemma mh_bookingA3 : MH bookingA3 ['п'] := by
  refine MH_seq (MH_lit 'п' "остав".data (by decide)) ?_
  refine MT_seq (MH_alt (MH_lit 'и' "л".data (by decide))
    (MH_lit 'л' "ю".data (by decide)) (by decide)).mt ?_
  refine MT_ws (MT_seq (MT_lit 'в' [] (by decide)) ?_)
  exact MT_ws (MT_lit 'р' "асписание".data (by decide))

lemma mh_bookingA4 : MH bookingA4 ['с'] := by
  refine MH_seq (MH_lit 'с' "озда".data (by decide)) ?_
  refine MT_seq (MH_alt (MH_lit 'л' [] (by decide))
    (MH_lit 'ю' [] (by decide)) (by decide)).mt ?_
  exact MT_ws (MT_lit 'з' "аявк".data (by decide))

lemma mh_bookingEnd :
    MH bookingEnd (['з'] ++ (['о'] ++ (['п'] ++ ['с']))) := by
  refine MH_alt mh_bookingA1 ?_ (by decide)
  refine MH_alt mh_bookingA2 ?_ (by decide)
  exact MH_alt mh_bookingA3 mh_bookingA4 (by decide)

lemma bookingEnd_pos {l : List Char} {n : Nat} (h : bookingEnd l = some n) :
    1 ≤ n := mh_bookingEnd.mt.pos l n h

lemma bookingEnd_bdd {l : List Char} {n : Nat} (h : bookingEnd l = some n) :
    n ≤ l.length := mh_bookingEnd.mt.bdd l n h

lemma bookingEnd_grow (l e : List Char) (n : Nat)
    (h : bookingEnd l = some n) : bookingEnd (l ++ e) = some n :=
  mh_bookingEnd.mt.grow l e n h

lemma bookingEnd_shrink (l e : List Char) (n : Nat)
    (h : bookingEnd (l ++ e) = some n) (hn : n ≤ l.length) :
    bookingEnd l = some n := mh_bookingEnd.mt.shrink l e n h hn

lemma bookingEnd_nostop {l : List Char} {n : Nat}
    (h : bookingEnd l = some n) : ∀ c ∈ l.take n, isStopChar c = false :=
  mh_bookingEnd.mt.nostop l n h

lemma bookingEnd_nil : bookingEnd [] = none := mh_bookingEnd.mt.nil

lemma bookingEnd_stop_head {s : Char} (t : List Char)
    (hs : isStopChar s = true) : bookingEnd (s :: t) = none := by
  apply mh_bookingEnd.head_no
  rw [ruLower_stop hs]
  have hc : s = '.' ∨ s = '!' ∨ s = '?' := by
    simp only [isStopChar, Bool.or_eq_true, decide_eq_true_eq] at hs
    tauto
  rcases hc with rfl | rfl | rfl <;> decide

/-! ## The scrubber produces booking-free text (claim C9) -/

/-- No position of `l` starts a `BOOKING_PHRASES` match: the list has no
substring matching the booking pattern. -/
def noBookingMatch (l : List Char) : Prop :=
  ∀ i, bookingEnd (l.drop i) = none

lemma scrubF_nil (fuel : Nat) : scrubF fuel [] = [] := by
  cases fuel <;> rfl

lemma scrubF_cons_none {fuel : Nat} {c : Char} {rest : List Char}
    (h : bookingEnd (c :: rest) = none) :
    scrubF (fuel + 1) (c :: rest) = c :: scrubF fuel rest := by
  have hstep : scrubF (fuel + 1) (c :: rest) =
      match bookingEnd (c :: rest) with
      | none => c :: scrubF fuel rest
      | some n =>
        scrubF fuel (((c :: rest).drop n).dropWhile (fun d => !(isStopChar d)))
      := rfl
  rw [hstep, h]

lemma scrubF_cons_some {fuel : Nat} {c : Char} {rest : List Char} {n : Nat}
    (h : bookingEnd (c :: rest) = some n) :
    scrubF (fuel + 1) (c :: rest) =
      scrubF fuel (((c :: rest).drop n).dropWhile (fun d => !(isStopChar d))) := by
  have hstep : scrubF (fuel + 1) (c :: rest) =
      match bookingEnd (c :: rest) with
      | none => c :: scrubF fuel rest
      | some m =>
        scrubF fuel (((c :: rest).drop m).dropWhile (fun d => !(isStopChar d)))
      := rfl
  rw [hstep, h]

lemma dropWhile_head_false {p : Char → Bool} :
    ∀ {x : List Char} {s : Char} {t : List Char}, x.dropWhile p = s :: t →
      p s = false := by
  intro x
  induction x with
  | nil => intro s t h; simp at h
  | cons c cs ih =>
    intro s t h
    cases hp : p c with
    | true =>
      rw [List.dropWhile_cons, hp] at h
      simp only [if_true] at h
      exact ih h
    | false =>
      rw [List.dropWhile_cons, hp] at h
      simp only [Bool.false_eq_true, if_false] at h
      rw [← (List.cons.inj h).1]
      exact hp

lemma dropWhile_length_le (p : Char → Bool) (l : List Char) :
    (l.dropWhile p).length ≤ l.length :=
  (List.dropWhile_suffix p).length_le

/-- Structure of the scrubbed output: it is a prefix of the input, possibly
followed by a tail that begins with a sentence stopper. -/
lemma scrubF_decomp : ∀ (fuel : Nat) (l : List Char), l.length ≤ fuel →
    ∃ a r, l = a ++ r ∧
      (scrubF fuel l = a ∨
        ∃ s t, scrubF fuel l = a ++ s :: t ∧ isStopChar s = true) := by
  intro fuel
  induction fuel with
  | zero =>
    intro l hl
    have hnil : l = [] := List.length_eq_zero.mp (Nat.le_zero.mp hl)
    subst hnil
    exact ⟨[], [], rfl, Or.inl rfl⟩
  | succ fuel ih =>
    intro l hl
    cases l with
    | nil => exact ⟨[], [], rfl, Or.inl rfl⟩
    | cons c rest =>
      cases hb : bookingEnd (c :: rest) with
      | none =>
        obtain ⟨a, r, har, hcase⟩ :=
          ih rest (by simp only [List.length_cons] at hl; omega)
        refine ⟨c :: a, r, by rw [List.cons_append, ← har], ?_⟩
        rcases hcase with hs | ⟨s, t, hs, hst⟩
        · left
          rw [scrubF_cons_none hb, hs]
        · right
          refine ⟨s, t, ?_, hst⟩
          rw [scrubF_cons_none hb, hs, List.cons_append]
      | some n =>
        refine ⟨[], c :: rest, rfl, ?_⟩
        have heq := @scrubF_cons_some fuel c rest n hb
        have hn := bookingEnd_pos hb
        have hremlen :
            (((c :: rest).drop n).dropWhile (fun d => !(isStopChar d))).length
              ≤ fuel := by
          have h1 := dropWhile_length_le (fun d => !(isStopChar d))
            ((c :: rest).drop n)
          simp only [List.length_drop, List.length_cons] at h1 ⊢
          simp only [List.length_cons] at hl
          omega
        cases hr : ((c :: rest).drop n).dropWhile (fun d => !(isStopChar d))
          with
        | nil =>
          left
          rw [heq, hr, scrubF_nil]
        | cons s t =>
          right
          have hss : isStopChar s = true := by
            have hps := dropWhile_head_false hr
            simp only [Bool.not_eq_false'] at hps
            exact hps
          rw [hr] at hremlen
          cases fuel with
          | zero => simp at hremlen
          | succ fuel2 =>
            refine ⟨s, scrubF fuel2 t, ?_, hss⟩
            rw [heq, hr, scrubF_cons_none (bookingEnd_stop_head t hss),
              List.nil_append]

/-- The scrubbed output has no booking-phrase match at any position. -/
lemma scrubF_clean : ∀ (fuel : Nat) (l : List Char), l.length ≤ fuel →
    ∀ i, bookingEnd ((scrubF fuel l).drop i) = none := by
  intro fuel
  induction fuel with
  | zero =>
    intro l hl i
    have hnil : l = [] := List.length_eq_zero.mp (Nat.le_zero.mp hl)
    subst hnil
    rw [scrubF_nil, List.drop_nil]
    exact bookingEnd_nil
  | succ fuel ih =>
    intro l hl i
    cases l with
    | nil =>
      rw [scrubF_nil, List.drop_nil]
      exact bookingEnd_nil
    | cons c rest =>
      cases hb : bookingEnd (c :: rest) with
      | some n =>
        rw [scrubF_cons_some hb]
        refine ih _ ?_ i
        have hn := bookingEnd_pos hb
        have h1 := dropWhile_length_le (fun d => !(isStopChar d))
          ((c :: rest).drop n)
        simp only [List.length_drop, List.length_cons] at h1 ⊢
        simp only [List.length_cons] at hl
        omega
      | none =>
        have hrlen : rest.length ≤ fuel := by
          simp only [List.length_cons] at hl
          omega
        rw [scrubF_cons_none hb]
        cases i with
        | succ j =>
          simp only [List.drop_succ_cons]
          exact ih rest hrlen j
        | zero =>
          rw [List.drop_zero]
          obtain ⟨a, r, har, hcase⟩ := scrubF_decomp fuel rest hrlen
          rcases hcase with hs | ⟨s, t, hs, hst⟩
          · cases hb2 : bookingEnd (c :: scrubF fuel rest) with
            | none => rfl
            | some m =>
              exfalso
              rw [hs] at hb2
              have hg := bookingEnd_grow (c :: a) r m hb2
              rw [List.cons_append, ← har] at hg
              rw [hg] at hb
              exact Option.noConfusion hb
          · rw [hs]
            cases hb2 : bookingEnd (c :: (a ++ s :: t)) with
            | none => rfl
            | some m =>
              exfalso
              have hb2' : bookingEnd ((c :: a) ++ s :: t) = some m := by
                rw [List.cons_append]
                exact hb2
              by_cases hm : m ≤ (c :: a).length
              · have h1 := bookingEnd_shrink (c :: a) (s :: t) m hb2' hm
                have h2 := bookingEnd_grow (c :: a) r m h1
                rw [List.cons_append, ← har] at h2
                rw [h2] at hb
                exact Option.noConfusion hb
              · push_neg at hm
                have hsm : s ∈ ((c :: a) ++ s :: t).take m := by
                  rw [List.take_append_eq_append_take]
                  refine List.mem_append.mpr (Or.inr ?_)
                  have h1 : 1 ≤ m - (c :: a).length := by omega
                  cases hmt : m - (c :: a).length with
                  | zero => omega
                  | succ k =>
                    rw [List.take_succ_cons]
                    exact List.mem_cons_self s _
                have hns := bookingEnd_nostop hb2' s hsm
                rw [hst] at hns
                exact Bool.noConfusion hns

/-- `noBookingMatch` passes to the left part of an append. -/
lemma noBookingMatch_append_left {x y : List Char}
    (h : noBookingMatch (x ++ y)) : noBookingMatch x := by
  intro i
  by_cases hi : i ≤ x.length
  · cases hb : bookingEnd (x.drop i) with
    | none => rfl
    | some n =>
      exfalso
      have hg := bookingEnd_grow _ y _ hb
      rw [← List.drop_append_of_le_length hi] at hg
      rw [h i] at hg
      exact Option.noConfusion hg
  · rw [List.drop_eq_nil_iff.mpr (by omega)]
    exact bookingEnd_nil

/-- `noBookingMatch` passes to the right part of an append. -/
lemma noBookingMatch_append_right {a x : List Char}
    (h : noBookingMatch (a ++ x)) : noBookingMatch x := by
  intro i
  have h2 := h (a.length + i)
  rwa [← List.drop_drop, List.drop_left] at h2

lemma noBookingMatch_stripChars {l : List Char} (h : noBookingMatch l) :
    noBookingMatch (stripChars l) := by
  unfold stripChars
  have h1 : noBookingMatch (l.dropWhile isWsChar) := by
    refine @noBookingMatch_append_right (l.takeWhile isWsChar) _ ?_
    rw [List.takeWhile_append_dropWhile]
    exact h
  refine @noBookingMatch_append_left _
    (((l.dropWhile isWsChar).reverse.takeWhile isWsChar).reverse) ?_
  have hdec :
      ((l.dropWhile isWsChar).reverse.dropWhile isWsChar).reverse ++
        ((l.dropWhile isWsChar).reverse.takeWhile isWsChar).reverse =
        l.dropWhile isWsChar := by
    rw [← List.reverse_append, List.takeWhile_append_dropWhile,
      List.reverse_reverse]
  rw [hdec]
  exact h1

lemma kbFold_stay (sc : KBItem → Nat) (kb : List KBItem)
    (acc : Nat × Option String) (h : ∀ it ∈ kb, sc it ≤ acc.1) :
    kbFold sc kb acc = acc := by
  induction kb generalizing acc with
  | nil => rfl
  | cons it rest ih =>
    have hit : sc it ≤ acc.1 := h it (by simp)
    have hstep : kbStep sc acc it = acc := by
      unfold kbStep
      rw [if_neg (by omega)]
    unfold kbFold at *
    rw [List.foldl_cons, hstep]
    exact ih acc (fun x hx => h x (by simp [hx]))

lemma kbFold_fst_lt (sc : KBItem → Nat) (kb : List KBItem)
    (acc : Nat × Option String) (m : Nat) (h : ∀ it ∈ kb, sc it < m)
    (h0 : acc.1 < m) : (kbFold sc kb acc).1 < m := by
  induction kb generalizing acc with
  | nil => exact h0
  | cons it rest ih =>
    unfold kbFold at *
    rw [List.foldl_cons]
    refine ih (kbStep sc acc it) (fun x hx => h x (by simp [hx])) ?_
    unfold kbStep
    by_cases hc : acc.1 < sc it
    · rw [if_pos hc]
      exact h it (by simp)
    · rw [if_neg hc]
      exact h0

lemma kbFold_fst_le (sc : KBItem → Nat) (kb : List KBItem)
    (acc : Nat × Option String) (m : Nat) (h : ∀ it ∈ kb, sc it ≤ m)
    (h0 : acc.1 ≤ m) : (kbFold sc kb acc).1 ≤ m := by
  induction kb generalizing acc with
  | nil => exact h0
  | cons it rest ih =>
    unfold kbFold at *
    rw [List.foldl_cons]
    refine ih (kbStep sc acc it) (fun x hx => h x (by simp [hx])) ?_
    unfold kbStep
    by_cases hc : acc.1 < sc it
    · rw [if_pos hc]
      exact h it (by simp)
    · rw [if_neg hc]
      exact h0

/-- The strict-improvement loop keeps the first entry attaining the maximal
score: entries before it score strictly less, entries after it score at
most as much. -/
lemma kbFold_first_max (sc : KBItem → Nat) (l1 : List KBItem) (e : KBItem)
    (l2 : List KBItem) (h1 : ∀ x ∈ l1, sc x < sc e)
    (h2 : ∀ x ∈ l2, sc x ≤ sc e) (hpos : 0 < sc e) :
    kbFold sc (l1 ++ e :: l2) (0, none) = (sc e, some e.answer) := by
  unfold kbFold
  rw [List.foldl_append, List.foldl_cons]
  have hlt : (List.foldl (kbStep sc) (0, none) l1).1 < sc e :=
    kbFold_fst_lt sc l1 (0, none) (sc e) h1 hpos
  have hstep : kbStep sc (List.foldl (kbStep sc) (0, none) l1) e =
      (sc e, some e.answer) := by
    unfold kbStep
    exact if_pos hlt
  rw [hstep]
  exact kbFold_stay sc l2 (sc e, some e.answer) (by simpa using h2)

lemma ctokSet_empty : ctokSet "" = [] := by decide

/-- C3: scoring behaviour of `kb_search` over the loaded knowledge base.
(1) A query whose canonical token set misses every entry yields `none`.
(2) If exactly one entry scores 2 and all others score below 2, that
entry's answer is returned.  (3) More generally, the first entry in
declaration order attaining the maximal score wins whenever that score is
at least 2.  (4) Without the two special tokens in the query, a best score
of 1 is rejected. -/
theorem kb_search_scoring (query : String) :
    ((∀ it ∈ KB, kbScore (ctokSet query) it = 0) → kb_search query = none) ∧
    (∀ l1 e l2, KB = l1 ++ e :: l2 →
      kbScore (ctokSet query) e = 2 →
      (∀ x ∈ l1, kbScore (ctokSet query) x < 2) →
      (∀ x ∈ l2, kbScore (ctokSet query) x < 2) →
      kb_search query = some e.answer) ∧
    (∀ l1 e l2, KB = l1 ++ e :: l2 →
      (∀ x ∈ l1, kbScore (ctokSet query) x < kbScore (ctokSet query) e) →
      (∀ x ∈ l2, kbScore (ctokSet query) x ≤ kbScore (ctokSet query) e) →
      2 ≤ kbScore (ctokSet query) e →
      kb_search query = some e.answer) ∧
    ("адрес" ∉ ctokSet query → "эвакуатор" ∉ ctokSet query →
      (∀ it ∈ KB, kbScore (ctokSet query) it ≤ 1) →
      kb_search query = none) := by
  have main : ∀ l1 e l2, KB = l1 ++ e :: l2 →
      (∀ x ∈ l1, kbScore (ctokSet query) x < kbScore (ctokSet query) e) →
      (∀ x ∈ l2, kbScore (ctokSet query) x ≤ kbScore (ctokSet query) e) →
      2 ≤ kbScore (ctokSet query) e →
      kb_search query = some e.answer := by
    intro l1 e l2 hkb h1 h2 hsc
    have hq : query ≠ "" := by
      intro h0
      rw [h0, ctokSet_empty] at hsc
      simp [kbScore] at hsc
    unfold kb_search
    rw [if_neg hq, hkb,
      kbFold_first_max (kbScore (ctokSet query)) l1 e l2 h1 h2 (by omega)]
    by_cases hsp :
        ("адрес" ∈ ctokSet query ∨ "эвакуатор" ∈ ctokSet query) ∧
          1 ≤ (kbScore (ctokSet query) e, some e.answer).1
    · rw [if_pos hsp]
    · rw [if_neg hsp, if_pos hsc]
  refine ⟨?_, ?_, main, ?_⟩
  · intro h
    by_cases hq : query = ""
    · unfold kb_search
      rw [if_pos hq]
    · unfold kb_search
      rw [if_neg hq,
        kbFold_stay (kbScore (ctokSet query)) KB (0, none)
          (fun it hit => by rw [h it hit])]
      rw [if_neg (by rintro ⟨-, hc⟩; simp at hc), if_neg (by intro hc; simp at hc)]
  · intro l1 e l2 hkb hsc h1 h2
    refine main l1 e l2 hkb (fun x hx => by rw [hsc]; exact h1 x hx)
      (fun x hx => by rw [hsc]; have := h2 x hx; omega) (by omega)
  · intro ha he h
    by_cases hq : query = ""
    · unfold kb_search
      rw [if_pos hq]
    · unfold kb_search
      rw [if_neg hq]
      have hle : (kbFold (kbScore (ctokSet query)) KB (0, none)).1 ≤ 1 :=
        kbFold_fst_le _ KB (0, none) 1 h (by omega)
      rw [if_neg (by rintro ⟨hc, -⟩
                     rcases hc with hc | hc
                     · exact ha hc
                     · exact he hc),
        if_neg (by omega)]

/-- Witness for `kb_search_scoring`: concrete queries exercising parts
(1), (2) and (4). -/
theorem kb_search_scoring_witness :
    kb_search "привет" = none ∧
    kb_search "гарантия качество" = some kbWarranty.answer ∧
    kb_search "привет цена" = none := by
  refine ⟨(kb_search_scoring "привет").1 (by decide), ?_, ?_⟩
  · exact (kb_search_scoring "гарантия качество").2.1
      [kbHours, kbAddress, kbTow, kbTiming, kbDiag, kbParts, kbContacts]
      kbWarranty [] rfl (by decide) (by decide) (by decide)
  · exact (kb_search_scoring "привет цена").2.2.2 (by decide) (by decide)
      (by decide)

/-- C10: the score-1 relaxation in `kb_search` is keyed on the query's
canonical tokens only: whenever the query's canonical token set contains
"адрес" or "эвакуатор", the answer of the first entry attaining the maximal
score is returned as soon as that score is at least 1 — whichever entry
that is. -/
theorem kb_search_relaxation (query : String) (l1 : List KBItem) (e : KBItem)
    (l2 : List KBItem) (hkb : KB = l1 ++ e :: l2)
    (h1 : ∀ x ∈ l1, kbScore (ctokSet query) x < kbScore (ctokSet query) e)
    (h2 : ∀ x ∈ l2, kbScore (ctokSet query) x ≤ kbScore (ctokSet query) e)
    (hpos : 1 ≤ kbScore (ctokSet query) e)
    (hq : "адрес" ∈ ctokSet query ∨ "эвакуатор" ∈ ctokSet query) :
    kb_search query = some e.answer := by
  have hq0 : query ≠ "" := by
    intro h0
    rw [h0, ctokSet_empty] at hq
    simp at hq
  unfold kb_search
  rw [if_neg hq0, hkb,
    kbFold_first_max (kbScore (ctokSet query)) l1 e l2 h1 h2 (by omega)]
  exact if_pos ⟨hq, hpos⟩

/-- Witness for `kb_search_relaxation`: the query "часы адрес" contains the
token "адрес", every entry scores at most 1, and the first best entry is
the hours entry — not the address entry — whose answer is returned. -/
theorem kb_search_relaxation_witness :
    kb_search "часы адрес" = some kbHours.answer ∧ kbHours ≠ kbAddress := by
  refine ⟨kb_search_relaxation "часы адрес" [] kbHours
    [kbAddress, kbTow, kbTiming, kbDiag, kbParts, kbContacts, kbWarranty]
    rfl (by decide) (by decide) (by decide) (Or.inl (by decide)), by decide⟩

/-! ## Theorem for sanitize_ai_reply (claim C9) -/

/-- C9: once an inquiry exists, `sanitize_ai_reply` is the identity; without
an inquiry, the sanitized reply contains no substring matching the
booking-promise pattern `BOOKING_PHRASES` (no position of the result starts
a match). -/
theorem sanitize_ai_reply_spec :
    (∀ text, sanitize_ai_reply text true = text) ∧
    (∀ text, noBookingMatch (sanitize_ai_reply text false).data) := by
  constructor
  · intro text
    rfl
  · intro text
    show noBookingMatch (String.mk (stripChars (scrub text.data))).data
    have hmk : (String.mk (stripChars (scrub text.data))).data =
        stripChars (scrub text.data) := rfl
    rw [hmk]
    exact noBookingMatch_stripChars
      (scrubF_clean text.data.length text.data (le_refl _))

/-! ## Theorems for ai_reply (claims C6, C7) -/

lemma aiLoop_step_eq (status : Nat → Option Nat) (content : Nat → String)
    (fuel i backoff : Nat) :
    aiLoop status content (fuel + 1) i backoff =
      match status i with
      | some s =>
        if s = 200 then (aiPostProcess (content i), [], 1)
        else if s ∈ AI_RETRYABLE then
          retryStep (aiLoop status content fuel (i + 1) (min (backoff * 2) 16))
            backoff
        else (aiTechError s, [], 1)
      | none =>
        retryStep (aiLoop status content fuel (i + 1) (min (backoff * 2) 16))
          backoff := rfl

lemma retryable_ne_200 {s : Nat} (h : s ∈ AI_RETRYABLE) : s ≠ 200 := by
  simp only [AI_RETRYABLE, List.mem_cons, List.mem_singleton,
    List.not_mem_nil, or_false] at h
  rcases h with rfl | rfl | rfl | rfl | rfl <;> decide

lemma aiLoop_retry_step {status : Nat → Option Nat} {content : Nat → String}
    {fuel i backoff s : Nat} (hs : status i = some s)
    (hr : s ∈ AI_RETRYABLE) :
    aiLoop status content (fuel + 1) i backoff =
      retryStep (aiLoop status content fuel (i + 1) (min (backoff * 2) 16))
        backoff := by
  rw [aiLoop_step_eq, hs]
  show (if s = 200 then (aiPostProcess (content i), [], 1)
    else if s ∈ AI_RETRYABLE then
      retryStep (aiLoop status content fuel (i + 1) (min (backoff * 2) 16))
        backoff
    else (aiTechError s, [], 1)) = _
  rw [if_neg (retryable_ne_200 hr), if_pos hr]

/-- C7: on a retryable status (429/500/502/503/504) every attempt sleeps the
current backoff (1, 2, 4, 8, 16 seconds, doubling capped at 16) and at most
5 attempts are made, after which the fixed high-load reply is returned; on
any other non-200 status the technical-error reply naming the status code is
returned after a single attempt, with no retry and no sleep. -/
theorem ai_reply_retry_spec (status : Nat → Option Nat)
    (content : Nat → String) (user_text : String)
    (history : List (String × String)) :
    ((∀ i, i < 5 → ∃ s, status i = some s ∧ s ∈ AI_RETRYABLE) →
      ai_reply true status content user_text history =
        (AI_OVERLOAD_REPLY, [1, 2, 4, 8, 16], 5)) ∧
    (∀ s, status 0 = some s → s ≠ 200 → s ∉ AI_RETRYABLE →
      ai_reply true status content user_text history =
        ("Техническая ошибка AI: HTTP " ++ toString s, [], 1)) := by
  constructor
  · intro h
    obtain ⟨s0, hs0, hr0⟩ := h 0 (by omega)
    obtain ⟨s1, hs1, hr1⟩ := h 1 (by omega)
    obtain ⟨s2, hs2, hr2⟩ := h 2 (by omega)
    obtain ⟨s3, hs3, hr3⟩ := h 3 (by omega)
    obtain ⟨s4, hs4, hr4⟩ := h 4 (by omega)
    show aiLoop status content 5 0 1 = _
    rw [aiLoop_retry_step hs0 hr0, aiLoop_retry_step hs1 hr1,
      aiLoop_retry_step hs2 hr2, aiLoop_retry_step hs3 hr3,
      aiLoop_retry_step hs4 hr4]
    rfl
  · intro s hs h200 hnr
    show aiLoop status content 5 0 1 = _
    rw [aiLoop_step_eq, hs]
    show (if s = 200 then (aiPostProcess (content 0), [], 1)
      else if s ∈ AI_RETRYABLE then
        retryStep (aiLoop status content 4 (0 + 1) (min (1 * 2) 16)) 1
      else (aiTechError s, [], 1)) = _
    rw [if_neg h200, if_neg hnr]
    rfl

/-- Witness for `ai_reply_retry_spec`: constant 429 exhausts the retries
with delays 1, 2, 4, 8, 16; status 418 fails immediately with the code in
the message. -/
theorem ai_reply_retry_witness :
    ai_reply true (fun _ => some 429) (fun _ => "") "привет" [] =
      (AI_OVERLOAD_REPLY, [1, 2, 4, 8, 16], 5) ∧
    ai_reply true (fun _ => some 418) (fun _ => "") "привет" [] =
      ("Техническая ошибка AI: HTTP " ++ toString 418, [], 1) := by
  constructor
  · exact (ai_reply_retry_spec (fun _ => some 429) (fun _ => "") "привет"
      []).1 (fun i hi => ⟨429, rfl, by decide⟩)
  · exact (ai_reply_retry_spec (fun _ => some 418) (fun _ => "") "привет"
      []).2 418 rfl (by decide) (by decide)

/-- C6 counterexample: the claim covers both `ai_reply` symbols it cites,
but `wa_ai_reply` (src/wa_server.py) without a key echoes the user text, so
two calls with different texts return different strings — the reply is not
independent of the user text. -/
theorem wa_ai_reply_text_dependent :
    wa_ai_reply false (WaOutcome.ok "") "а" "u" ≠
      wa_ai_reply false (WaOutcome.ok "") "б" "u" := by
  decide

/-- C6 amended: with no completion credential, `ai_reply` of src/main.py
returns the fixed string `AI_NOKEY_REPLY` independent of the user text and
history with zero HTTP attempts; `ai_reply` of src/wa_server.py likewise
makes zero HTTP attempts but returns the deterministic, text-dependent echo
string. -/
theorem ai_reply_no_key_spec :
    (∀ status content user_text history,
      ai_reply false status content user_text history =
        (AI_NOKEY_REPLY, [], 0)) ∧
    (∀ outcome text user_id,
      wa_ai_reply false outcome text user_id = ("Эхо: " ++ text, 0)) := by
  exact ⟨fun _ _ _ _ => rfl, fun _ _ _ => rfl⟩

/-! ## Theorem for the router's DIY short-circuit (claim C1) -/

/-- C1: when the session is not awaiting a name and the (stripped) inbound
text triggers `is_diy_request`, `handle_text` replies with exactly
`DIY_SAFE_REPLY` and performs no CRM call and no completion-API call —
whatever else the text contains (in particular a valid phone number). -/
theorem handle_text_diy_short_circuit (cfg : BotConfig) (o : Oracle)
    (tgName text0 : String) (st0 : Session)
    (hdiy : is_diy_request (pyStrip text0) = true)
    (hawait : st0.await_name = false) :
    (handle_text cfg o tgName text0 st0).replies = [DIY_SAFE_REPLY] ∧
    (handle_text cfg o tgName text0 st0).crm = [] ∧
    (handle_text cfg o tgName text0 st0).aiCalls = 0 ∧
    (handle_text cfg o tgName text0 st0).aiHttpCalls = 0 := by
  unfold handle_text
  rw [hawait]
  simp only [Bool.false_eq_true, if_false, hdiy, if_true]
  simp

/-- Witness for `handle_text_diy_short_circuit`: the end-to-end scenario
from the spec — a message carrying both a DIY trigger and a valid phone
number yields the refusal and zero external calls. -/
theorem handle_text_diy_witness :
    is_diy_request (pyStrip "как снять цепь самому +27821234567") = true ∧
    extract_phone "как снять цепь самому +27821234567" =
      some "+27821234567" ∧
    (handle_text ⟨"telegram", true, true⟩
      ⟨CrmOutcome.ok 1, fun _ => some 200, fun _ => "", 0⟩ "Клиент"
      "как снять цепь самому +27821234567" {}).replies = [DIY_SAFE_REPLY] ∧
    (handle_text ⟨"telegram", true, true⟩
      ⟨CrmOutcome.ok 1, fun _ => some 200, fun _ => "", 0⟩ "Клиент"
      "как снять цепь самому +27821234567" {}).crm = [] ∧
    (handle_text ⟨"telegram", true, true⟩
      ⟨CrmOutcome.ok 1, fun _ => some 200, fun _ => "", 0⟩ "Клиент"
      "как снять цепь самому +27821234567" {}).aiCalls = 0 := by
  have h := handle_text_diy_short_circuit ⟨"telegram", true, true⟩
    ⟨CrmOutcome.ok 1, fun _ => some 200, fun _ => "", 0⟩ "Клиент"
    "как снять цепь самому +27821234567" {} (by decide) rfl
  exact ⟨by decide, by decide, h.1, h.2.1, h.2.2.1⟩

/-! ## Theorems for the intake state machine (claim C2) -/

/-- C2: starting from `NONE`, the start command followed by valid inputs
for phone, model, plate, odometer, issue and a confirmation ends in `NONE`
with an empty draft and exactly one persisted record holding the five
normalized values; and from every `AWAITING_*` state the explicit cancel
command goes directly to `NONE` with a cleared draft and an
acknowledgment. -/
theorem intake_machine_spec :
    (∀ phoneIn p modelIn plateIn odoIn n issueIn confirmIn,
      normalize_phone phoneIn = some p →
      3 ≤ (normalizePlate plateIn).length →
      normalizeOdometer odoIn = some n →
      isCancelCmd phoneIn = false →
      isCancelCmd modelIn = false →
      isCancelCmd plateIn = false →
      isCancelCmd odoIn = false →
      isCancelCmd issueIn = false →
      isCancelCmd confirmIn = false →
      intakeRun {}
        ["/ro", phoneIn, modelIn, plateIn, odoIn, issueIn, confirmIn] =
        (⟨FormState.fsNone, {}⟩,
         [⟨p, truncCap modelIn, normalizePlate plateIn, n,
           truncCap issueIn⟩])) ∧
    (∀ s : IntakeSession, s.state ≠ FormState.fsNone →
      intakeStep s "/cancel" =
        (⟨FormState.fsNone, {}⟩, ["Заявка отменена."], [])) := by
  constructor
  · intro phoneIn p modelIn plateIn odoIn n issueIn confirmIn hp hpl hod hc1
      hc2 hc3 hc4 hc5 hc6
    have e1 : intakeStep ⟨FormState.fsNone, {}⟩ "/ro" =
        (⟨FormState.awPhone, {}⟩, ["Пришлите номер телефона."], []) := by
      decide
    have e2 : intakeStep ⟨FormState.awPhone, {}⟩ phoneIn =
        (⟨FormState.awModel, { phone := some p }⟩,
         ["Укажите марку и модель."], []) := by
      simp [intakeStep, hc1, hp]
    have e3 : intakeStep ⟨FormState.awModel, { phone := some p }⟩ modelIn =
        (⟨FormState.awPlate,
          { phone := some p, makeModel := some (truncCap modelIn) }⟩,
         ["Укажите госномер."], []) := by
      simp [intakeStep, hc2]
    have e4 : intakeStep ⟨FormState.awPlate,
        { phone := some p, makeModel := some (truncCap modelIn) }⟩ plateIn =
        (⟨FormState.awOdometer,
          { phone := some p, makeModel := some (truncCap modelIn),
            plate := some (normalizePlate plateIn) }⟩,
         ["Укажите пробег."], []) := by
      simp [intakeStep, hc3, hpl]
    have e5 : intakeStep ⟨FormState.awOdometer,
        { phone := some p, makeModel := some (truncCap modelIn),
          plate := some (normalizePlate plateIn) }⟩ odoIn =
        (⟨FormState.awIssue,
          { phone := some p, makeModel := some (truncCap modelIn),
            plate := some (normalizePlate plateIn), odometer := some n }⟩,
         ["Опишите проблему."], []) := by
      simp [intakeStep, hc4, hod]
    have e6 : intakeStep ⟨FormState.awIssue,
        { phone := some p, makeModel := some (truncCap modelIn),
          plate := some (normalizePlate plateIn), odometer := some n }⟩
        issueIn =
        (⟨FormState.awConfirm,
          { phone := some p, makeModel := some (truncCap modelIn),
            plate := some (normalizePlate plateIn), odometer := some n,
            issue := some (truncCap issueIn) }⟩,
         ["Проверьте данные. Подтвердить?"], []) := by
      simp [intakeStep, hc5]
    have e7 : intakeStep ⟨FormState.awConfirm,
        { phone := some p, makeModel := some (truncCap modelIn),
          plate := some (normalizePlate plateIn), odometer := some n,
          issue := some (truncCap issueIn) }⟩ confirmIn =
        (⟨FormState.fsNone, {}⟩, ["Заявка сохранена."],
         [⟨p, truncCap modelIn, normalizePlate plateIn, n,
           truncCap issueIn⟩]) := by
      simp [intakeStep, hc6]
    simp only [intakeRun, List.foldl_cons, List.foldl_nil, e1, e2, e3, e4,
      e5, e6, e7]
    simp
  · intro s hs
    unfold intakeStep
    rw [if_pos ⟨by decide, hs⟩]

/-- Witness for `intake_machine_spec`: the §8 end-to-end scenario input
sequence, and a cancel from the odometer state. -/
theorem intake_machine_witness :
    intakeRun {}
      ["/ro", "+27821234567", "Honda CG125", "CA 123 45", "45000",
       "clutch slipping", "yes"] =
      (⟨FormState.fsNone, {}⟩,
       [⟨"+27821234567", "Honda CG125", "CA12345", 45000,
         "clutch slipping"⟩]) ∧
    intakeStep ⟨FormState.awOdometer, { phone := some "+1234567" }⟩
      "/cancel" = (⟨FormState.fsNone, {}⟩, ["Заявка отменена."], []) := by
  constructor
  · have h := intake_machine_spec.1 "+27821234567" "+27821234567"
      "Honda CG125" "CA 123 45" "45000" 45000 "clutch slipping" "yes"
      (by decide) (by decide) (by decide) (by decide) (by decide) (by decide)
      (by decide) (by decide) (by decide)
    rw [h]
    decide
  · exact intake_machine_spec.2 _ (by decide)

/-- Witness for `push_history_bounded`: a push onto a full 6-entry history
evicts exactly the oldest entry. -/
theorem push_history_bounded_witness :
    ("x" : String) ≠ "" ∧
    push_history
      [("u", "a"), ("a", "b"), ("u", "c"), ("a", "d"), ("u", "e"), ("a", "f")]
      "user" "x" =
      [("a", "b"), ("u", "c"), ("a", "d"), ("u", "e"), ("a", "f"),
        ("user", "x")] := by
  constructor
  · decide
  · rw [push_history_bounded.2 _ "user" "x" (by decide)]
    decide

end Gnco
